import Mathlib

/-!
Verification of the alma backend (task execution engine, chunker, embedding
cache, FAISS-backed vector store) against its natural-language specification.
Python sources are shallowly embedded: mutable dicts become insertion-ordered
association lists, ambient effects (uuid, clocks, the generation model, the
embedding model) become explicit parameters, generators become functions from
a description of the producer/consumer interleaving to the observable outcome,
and `while` loops become fuel-indexed recursions where the source gives no
termination argument.
-/

namespace Alma

/-! ## Python dict model (insertion-ordered association list) -/

/-- Lookup in a Python dict: first (unique) binding for the key, `none` when
the key is absent (`d.get(k)` / `k in d`). -/
def dictGet {α β : Type} [DecidableEq α] : List (α × β) → α → Option β
  | [], _ => none
  | p :: rest, k => if p.1 = k then some p.2 else dictGet rest k

/-- Assignment `d[k] = v` in a Python dict: overwrite in place when the key is
present, append a fresh binding otherwise (insertion order preserved). -/
def dictInsert {α β : Type} [DecidableEq α] (m : List (α × β)) (k : α) (v : β) :
    List (α × β) :=
  if (dictGet m k).isSome then
    m.map (fun p => if p.1 = k then (k, v) else p)
  else m ++ [(k, v)]

/-! ## Task execution engine (`backend/agents/manager_agent.py`) -/

/-- Enum `TaskStatus` from `manager_agent.py`. -/
inductive TaskStatus
  | pending
  | processing
  | completed
  | failed
  | timeout
  | cancelled
deriving DecidableEq, Repr

/-- The four terminal statuses of the task state machine (spec section 4.1). -/
def TaskStatus.isTerminal : TaskStatus → Bool
  | .completed => true
  | .failed => true
  | .timeout => true
  | .cancelled => true
  | _ => false

/-- Pydantic model `Task` (the fields the verified claims touch; timestamps and
token counters are carried by the run model instead). -/
structure Task where
  id : String
  prompt : String
  status : TaskStatus := .pending
  result : Option String := none
  error : Option String := none
deriving DecidableEq, Repr

/-- Method `ManagerAgent._validate_task`, lines 182-189. An empty string is
falsy in Python, so `not task.id` / `not task.prompt` reject exactly the empty
id / prompt; the third check (`task.status not in TaskStatus`) cannot fire in
the typed model. Raising `TaskValidationError` is modelled as `Except.error`. -/
def ManagerAgent.validate_task (task : Task) : Except String Unit :=
  if task.id = "" then .error "Task ID is required"
  else if task.prompt = "" then .error "Task prompt is required"
  else .ok ()

/-- Method `ManagerAgent.create_task`, lines 242-253: builds a `Task` with a
fresh uuid (passed explicitly as `id`) and `Pending` status, stores it in
`self.tasks` unconditionally, and returns it. No validation is performed. -/
def ManagerAgent.create_task (tasks : List (String × Task)) (id : String)
    (prompt : String) : List (String × Task) × Task :=
  let task : Task := { id := id, prompt := prompt }
  (dictInsert tasks id task, task)

/-- Method `ManagerAgent.cancel_task`, lines 255-265: unknown id raises
`TaskValidationError`; a `Pending`/`Processing` task is moved to `Cancelled`;
otherwise the call only logs a warning and changes nothing. -/
def ManagerAgent.cancel_task (tasks : List (String × Task)) (taskId : String) :
    Except String (List (String × Task)) :=
  match dictGet tasks taskId with
  | none => .error ("Task not found: " ++ taskId)
  | some task =>
    if task.status = .pending ∨ task.status = .processing then
      .ok (dictInsert tasks taskId { task with status := .cancelled })
    else
      .ok tasks

/-- What one invocation of the opaque generation engine would do: stream some
chunks and then either finish normally or raise (the chunks yielded before the
raise included). -/
inductive GenOutcome
  | yields (chunks : List String)
  | fails (chunks : List String) (err : String)
deriving DecidableEq, Repr

/-- Observable outcome of one `ManagerAgent.process_task` run: the task's final
status/result/error fields and the chunks actually flushed to the caller. -/
structure RunResult where
  finalStatus : TaskStatus
  error : Option String
  result : Option String
  yielded : List String
deriving DecidableEq, Repr

/-- Method `ManagerAgent.process_task`, lines 474-551, as a function of the
generator's behaviour and of the consumer's interleaving. The task is created
directly in `Processing` status. The body is `try: async for chunk in
self._generate_response(...): yield chunk` followed by the completion updates,
`except Exception as e` setting `Failed`/`str(e)` and re-raising, and a
`finally` that only reclaims GPU memory.
  * `cancelAfter = some c` means the consumer invoked `cancel_task` after
    receiving chunk `c` (0-based); the shared task object becomes `Cancelled`
    at that point, but the loop contains no status check, so streaming simply
    continues and a normal completion later overwrites the status with
    `Completed`.
  * `abandonAfter = some k` means the consumer stopped consuming after `k`
    chunks; `GeneratorExit` is then thrown at the suspended `yield`, which
    `except Exception` does not catch, so no status field is touched on the
    way out. -/
def process_task_run (gen : GenOutcome) (cancelAfter : Option Nat)
    (abandonAfter : Option Nat) : RunResult :=
  let chunksAll := match gen with
    | .yields cs => cs
    | .fails cs _ => cs
  let consumedCount := match abandonAfter with
    | some k => min k chunksAll.length
    | none => chunksAll.length
  let yielded := chunksAll.take consumedCount
  let abandoned : Bool := decide (consumedCount < chunksAll.length)
  let cancelled : Bool := match cancelAfter with
    | some c => decide (c + 1 ≤ consumedCount)
    | none => false
  if abandoned then
    { finalStatus := if cancelled then .cancelled else .processing
      error := none
      result := none
      yielded := yielded }
  else
    match gen with
    | .fails _ e =>
        { finalStatus := .failed, error := some e, result := none, yielded := yielded }
    | .yields cs =>
        { finalStatus := .completed, error := none, result := some (String.join cs),
          yielded := yielded }

/-- The engine's use of the generator across retries. `ManagerAgent.__init__`
(lines 97-111) stores `max_retries` (default 3), but `process_task` contains no
retry loop: the attribute is never read again anywhere in the class, so only
the first attempt (`attempts 0`) is ever issued, whatever `maxRetries` holds. -/
def process_task_attempts (attempts : Nat → GenOutcome) (maxRetries : Nat)
    (cancelAfter abandonAfter : Option Nat) : RunResult :=
  process_task_run (attempts 0) cancelAfter abandonAfter

/-- How the body of the `_task_context` scope can exit: it ran to completion
leaving the status it set (possibly still `Processing`), it raised an
`Exception`, or the surrounding generator was closed (`GeneratorExit`, which
`except Exception` does not catch but `finally` still sees). In each case the
parameter records the status the body left behind. -/
inductive ContextExit
  | finished (statusLeftByBody : TaskStatus)
  | raised (err : String) (statusLeftByBody : TaskStatus)
  | closed (statusLeftByBody : TaskStatus)
deriving DecidableEq, Repr

/-- Status the body of the scope left on the task when control came back to
`_task_context`. -/
def ContextExit.statusLeft : ContextExit → TaskStatus
  | .finished s => s
  | .raised _ s => s
  | .closed s => s

/-- Context manager `ManagerAgent._task_context`, lines 221-234: sets
`Processing`, runs the body, converts an `Exception` into `Failed` with the
exception text, and in `finally` forces any task still `Processing` to
`Failed` with error "Task processing interrupted". -/
def task_context (exit : ContextExit) (t : Task) : Task :=
  let t1 : Task := { t with status := .processing }
  match exit with
  | .finished s =>
      let t2 : Task := { t1 with status := s }
      if t2.status = .processing then
        { t2 with status := .failed, error := some "Task processing interrupted" }
      else t2
  | .raised e s =>
      let t2 : Task := { t1 with status := s }
      let t3 : Task := { t2 with status := .failed, error := some e }
      if t3.status = .processing then
        { t3 with status := .failed, error := some "Task processing interrupted" }
      else t3
  | .closed s =>
      let t2 : Task := { t1 with status := s }
      if t2.status = .processing then
        { t2 with status := .failed, error := some "Task processing interrupted" }
      else t2

/-! ## Text chunking (`backend/vector_store/chunking.py`)

Text is modelled as `List Char`; Python's signed slice indices, `str.strip`,
and the two regular expressions used by `_find_boundary` are embedded
directly. The `while` loop of `create_chunks` carries no termination
argument in the source, so it is embedded with explicit fuel: `none` means
the loop was still running when the fuel ran out. -/

/-- Python whitespace test used by `str.strip` and the `\s` character class
(ASCII range: space, tab, newline, carriage return, vertical tab, form feed). -/
def isWS (c : Char) : Bool :=
  c == ' ' || c == '\t' || c == '\n' || c == '\r' || c == Char.ofNat 11 || c == Char.ofNat 12

/-- Clamp one bound of a Python slice `s[a:b]` of a string of length `n`:
negative indices count from the end (floored at 0), positive ones are capped
at `n`. -/
def pySliceIdx (n : Nat) (i : Int) : Nat :=
  if i < 0 then ((n : Int) + i).toNat else min i.toNat n

/-- Python slice `s[a:b]` with step 1 on possibly negative `Int` bounds. -/
def pySlice (s : List Char) (a b : Int) : List Char :=
  (s.take (pySliceIdx s.length b)).drop (pySliceIdx s.length a)

/-- Python `str.strip()`: drop leading and trailing whitespace. -/
def pyStrip (s : List Char) : List Char :=
  ((s.dropWhile isWS).reverse.dropWhile isWS).reverse

/-- Matcher for the pattern `[.!?][\s]{1,2}` at position `p`: a sentence
terminator followed greedily by one or two whitespace characters; returns the
exclusive end of the match. -/
def sentEndAt (s : List Char) (p : Nat) : Option Nat :=
  match s.get? p with
  | none => none
  | some c =>
    if c = '.' ∨ c = '!' ∨ c = '?' then
      match s.get? (p + 1) with
      | none => none
      | some c1 =>
        if isWS c1 then
          match s.get? (p + 2) with
          | some c2 => if isWS c2 then some (p + 3) else some (p + 2)
          | none => some (p + 2)
        else none
    else none

/-- Matcher for the fallback pattern `[,;:\s]` at position `p`. -/
def punctAt (s : List Char) (p : Nat) : Option Nat :=
  match s.get? p with
  | none => none
  | some c => if c = ',' ∨ c = ';' ∨ c = ':' ∨ isWS c = true then some (p + 1) else none

/-- Scanner behind `re.finditer`: left-to-right, non-overlapping, resuming at
each match end (all matches here consume at least one character). Fuel-driven;
`s.length + 1` units always suffice since the position strictly increases. -/
def findIterGo (matchAt : List Char → Nat → Option Nat) (s : List Char) :
    Nat → Nat → List (Nat × Nat)
  | 0, _ => []
  | fuel + 1, p =>
    if p < s.length then
      match matchAt s p with
      | some e => (p, e) :: findIterGo matchAt s fuel (max e (p + 1))
      | none => findIterGo matchAt s fuel (p + 1)
    else []

/-- All matches `(start, end)` of a pattern in `s`, as `re.finditer` lists
them. -/
def findIter (matchAt : List Char → Nat → Option Nat) (s : List Char) :
    List (Nat × Nat) :=
  findIterGo matchAt s (s.length + 1) 0

/-- Constructor arguments of `ChunkingStrategy`, with its Python defaults. -/
structure ChunkCfg where
  chunk_size : Int := 512
  chunk_overlap : Int := 50
  respect_boundaries : Bool := true
deriving DecidableEq, Repr

/-- Dataclass `ChunkMetadata` (the `context` dict flattened into its two
keys). -/
structure ChunkMetadata where
  index : Nat
  char_start : Int
  char_end : Int
  token_count : Option Nat := none
  source : Option String := none
  prev_context : List Char := []
  next_context : List Char := []
deriving DecidableEq, Repr

/-- Dataclass `TextChunk` from `chunking.py`. -/
structure TextChunk where
  text : List Char
  metadata : ChunkMetadata
deriving DecidableEq, Repr

/-- Method `ChunkingStrategy._find_boundary`, lines 50-71: search a window
after (or before) `position` for a sentence ending, falling back to any
punctuation or whitespace; return the adjusted cut position, or `position`
unchanged when nothing matches. -/
def find_boundary (cfg : ChunkCfg) (text : List Char) (position : Int)
    (forward : Bool) : Int :=
  if !cfg.respect_boundaries then position
  else
    let window : Int := if forward then 100 else 50
    let searchText :=
      if forward then pySlice text position (position + window)
      else pySlice text (max 0 (position - window)) position
    let bs0 := findIter sentEndAt searchText
    let bs := if bs0.isEmpty then findIter punctAt searchText else bs0
    if forward then
      match bs.head? with
      | some b => position + (b.2 : Int)
      | none => position
    else
      match bs.getLast? with
      | some b => position - ((searchText.length : Int) - (b.1 : Int))
      | none => position

/-- Loop body of `ChunkingStrategy.create_chunks`, lines 88-119, with fuel:
`none` means the `while start < len(text)` loop was still running after `fuel`
iterations. Each iteration cuts `[start, end)` (boundary-adjusted when `end`
falls short of the text), appends the stripped chunk when non-empty, steps
`start` to `end - chunk_overlap`, and forces `start = end + 1` only when that
step did not pass `end`. -/
def create_chunks_go (cfg : ChunkCfg) (text : List Char) (source : Option String) :
    Nat → Int → Nat → List TextChunk → Option (List TextChunk)
  | 0, _, _, _ => none
  | fuel + 1, start, chunkIndex, chunks =>
    if start < (text.length : Int) then
      let e0 := start + cfg.chunk_size
      let e := if e0 < (text.length : Int) then find_boundary cfg text e0 true
               else (text.length : Int)
      let chunkText := pyStrip (pySlice text start e)
      let stepped :=
        if chunkText.isEmpty then (chunks, chunkIndex)
        else
          (chunks ++ [{ text := chunkText
                        metadata := { index := chunkIndex, char_start := start,
                                      char_end := e, source := source
                                      prev_context := pyStrip (pySlice text (max 0 (start - 100)) start)
                                      next_context := pyStrip (pySlice text e (min (text.length : Int) (e + 100))) } }],
           chunkIndex + 1)
      let start1 := e - cfg.chunk_overlap
      let start2 := if start1 ≥ e then e + 1 else start1
      create_chunks_go cfg text source fuel start2 stepped.2 stepped.1
    else some chunks

/-- Method `ChunkingStrategy.create_chunks`, lines 73-121. -/
def ChunkingStrategy.create_chunks (cfg : ChunkCfg) (text : List Char)
    (source : Option String) (fuel : Nat) : Option (List TextChunk) :=
  create_chunks_go cfg text source fuel 0 0 []

/-- Method `TextChunker.process`, lines 134-159: blank input returns `[]`
before any strategy is consulted; otherwise the named strategy (or the
default) chunks the text. The `try` block only re-raises, so it adds no
behaviour to model. -/
def TextChunker.process (strategies : List (String × ChunkCfg))
    (default_strategy : ChunkCfg) (text : List Char) (strategy_name : Option String)
    (source : Option String) (fuel : Nat) : Option (List TextChunk) :=
  if (pyStrip text).isEmpty then some []
  else
    let strategy := match strategy_name with
      | some n => (dictGet strategies n).getD default_strategy
      | none => default_strategy
    ChunkingStrategy.create_chunks strategy text source fuel

/-! ## Embedding generation (`backend/vector_store/embeddings.py`)

Embedding vectors are modelled as integer lists (`np.float32` arrays whose
only verified property is bit-identity), the opaque transformer model as an
explicit function `embed : String → Vec`, and the md5 content hash behind the
file-per-entry cache as an explicit function `hash : String → String`. -/

/-- Embedding vector. -/
abbrev Vec := List Int

/-- Class `EmbeddingCache`: one `.npy` file per content-hash key, modelled as
a dict from cache key to vector. -/
structure EmbeddingCache where
  entries : List (String × Vec)
deriving DecidableEq, Repr

/-- Method `EmbeddingCache.get`, lines 28-39: look the hashed text up, `none`
when no cache file exists. -/
def EmbeddingCache.get (hash : String → String) (c : EmbeddingCache)
    (text : String) : Option Vec :=
  dictGet c.entries (hash text)

/-- Method `EmbeddingCache.store`, lines 41-48: write the vector under the
hashed text, overwriting any previous file. -/
def EmbeddingCache.store (hash : String → String) (c : EmbeddingCache)
    (text : String) (embedding : Vec) : EmbeddingCache :=
  ⟨dictInsert c.entries (hash text) embedding⟩

/-- Merge loop of `EmbeddingGenerator.generate`, lines 139-148: walk the batch
positions, keep cached vectors, and fill each miss with the next generated
vector while writing it back into the cache. `generated` has exactly one
vector per miss; the exhausted case is unreachable (it would be an
`IndexError` in Python). -/
def mergeGenerated (hash : String → String) :
    List (String × Option Vec) → List Vec → EmbeddingCache →
    List Vec × EmbeddingCache
  | [], _, c => ([], c)
  | (_, some v) :: rest, generated, c =>
    let r := mergeGenerated hash rest generated c
    (v :: r.1, r.2)
  | (t, none) :: rest, g :: generated, c =>
    let r := mergeGenerated hash rest generated (EmbeddingCache.store hash c t g)
    (g :: r.1, r.2)
  | (_, none) :: rest, [], c =>
    let r := mergeGenerated hash rest [] c
    r

/-- One iteration of the batch loop of `generate`, lines 121-150: check the
cache per text, embed the misses in one model call, merge, and write misses
back. Returns the batch's vectors in input order, the texts sent to the
model, and the updated cache. -/
def generateBatch (embed : String → Vec) (hash : String → String)
    (cache : EmbeddingCache) (batchTexts : List String) :
    List Vec × List String × EmbeddingCache :=
  let batchEmb0 : List (String × Option Vec) :=
    batchTexts.map (fun t => (t, EmbeddingCache.get hash cache t))
  let textsToGenerate := batchEmb0.filterMap
    (fun p => if p.2.isNone then some p.1 else none)
  let generated := textsToGenerate.map embed
  let merged := mergeGenerated hash batchEmb0 generated cache
  (merged.1, textsToGenerate, merged.2)

/-- Batch loop of `generate` (`for i in range(0, len(texts), self.batch_size)`)
with fuel; `texts.length` units always suffice for a positive batch size. -/
def generateGo (embed : String → Vec) (hash : String → String) (batchSize : Nat) :
    Nat → EmbeddingCache → List String → List Vec × List String × EmbeddingCache
  | 0, cache, _ => ([], [], cache)
  | fuel + 1, cache, texts =>
    if texts.isEmpty then ([], [], cache)
    else
      let b := generateBatch embed hash cache (texts.take batchSize)
      let r := generateGo embed hash batchSize fuel b.2.2 (texts.drop batchSize)
      (b.1 ++ r.1, b.2.1 ++ r.2.1, r.2.2)

/-- Method `EmbeddingGenerator.generate`, lines 104-152, for a generator
constructed with `use_cache=True` (the default): returns one vector per input
text in order, together with the list of texts actually sent to the embedding
model and the final cache state. -/
def generate (embed : String → Vec) (hash : String → String) (batchSize : Nat)
    (cache : EmbeddingCache) (texts : List String) :
    List Vec × List String × EmbeddingCache :=
  if texts.isEmpty then ([], [], cache)
  else generateGo embed hash batchSize texts.length cache texts

/-! ## Vector store (`backend/vector_store/store.py`)

The FAISS flat L2 index is embedded as the list of stored vectors in insertion
order (a vector's id is its position, `ntotal` the list length); `index.add`
appends, `index.reconstruct i` reads position `i`, `index.reset` clears, and
`index.search` returns the `k` nearest vectors by squared Euclidean distance
(ties broken by lower id), ids `-1` padding short results already excluded.
The embedding generator used at `add`/query time is passed explicitly, as is
the `datetime.now().isoformat()` timestamp. -/

/-- One value of the `self.metadata` dict: the fields written by
`VectorStore.add`, lines 96-100 (a chunk's free-form metadata dict is modelled
as a string map). -/
structure MetaRec where
  text : String
  metadata : List (String × String)
  timestamp : String
deriving DecidableEq, Repr

/-- What `VectorStore.add` reads from each incoming chunk (`chunk.text` and
`chunk.metadata`). -/
structure StoreChunk where
  text : String
  metadata : List (String × String)
deriving DecidableEq, Repr

/-- State of a `VectorStore`: the FAISS index contents plus the id-keyed
metadata dict. -/
structure VectorStore where
  vectors : List Vec
  metadata : List (Nat × MetaRec)
deriving DecidableEq, Repr

/-- Loop body of `VectorStore.add`, lines 93-101: store the metadata record
under id `start_idx + i` and append that id to the returned list. -/
def addMetaStep (startIdx : Nat) (now : String)
    (acc : List (Nat × MetaRec) × List Nat) (ic : Nat × StoreChunk) :
    List (Nat × MetaRec) × List Nat :=
  (dictInsert acc.1 (startIdx + ic.1)
     { text := ic.2.text, metadata := ic.2.metadata, timestamp := now },
   acc.2 ++ [startIdx + ic.1])

/-- Method `VectorStore.add`, lines 71-104: embed the chunks, append the
vectors to the index starting at id `ntotal`, record metadata per id, and
return the assigned ids. -/
def VectorStore.add (s : VectorStore) (embed : String → Vec) (now : String)
    (chunks : List StoreChunk) : VectorStore × List Nat :=
  if chunks.isEmpty then (s, [])
  else
    let embeddings := chunks.map (fun c => embed c.text)
    let startIdx := s.vectors.length
    let vectors := s.vectors ++ embeddings
    let folded := chunks.enum.foldl (addMetaStep startIdx now) (s.metadata, [])
    ({ vectors := vectors, metadata := folded.1 }, folded.2)

/-- Squared Euclidean distance, the score of a FAISS `IndexFlatL2`. -/
def sqDist (u v : Vec) : Int :=
  (List.zipWith (fun a b => (a - b) * (a - b)) u v).foldl (· + ·) 0

/-- Stable insertion of a scored id, ordered by distance then id. -/
def insertScored (x : Nat × Int) : List (Nat × Int) → List (Nat × Int)
  | [] => [x]
  | y :: ys =>
    if x.2 < y.2 ∨ (x.2 = y.2 ∧ x.1 ≤ y.1) then x :: y :: ys
    else y :: insertScored x ys

/-- Sort scored ids by increasing distance (ties by lower id), as the flat
index ranks results. -/
def sortScored : List (Nat × Int) → List (Nat × Int)
  | [] => []
  | x :: xs => insertScored x (sortScored xs)

/-- Method `VectorStore.search`, lines 106-143, on an already-embedded query
vector: rank all stored vectors by distance, keep the best `k` (fewer when the
index is smaller — the `-1` padding slots FAISS returns are filtered out by
the `idx != -1` check), apply the optional `distance <= threshold` filter, and
attach `self.metadata.get(int(idx), {})` (`none` models the `{}` default). -/
def VectorStore.search (s : VectorStore) (query : Vec) (k : Nat)
    (threshold : Option Int) : List (Nat × Int × Option MetaRec) :=
  let scored := (List.range s.vectors.length).map
    (fun i => (i, sqDist query ((s.vectors.get? i).getD [])))
  let topk := (sortScored scored).take k
  topk.filterMap (fun p =>
    match threshold with
    | none => some (p.1, p.2, dictGet s.metadata p.1)
    | some t => if p.2 ≤ t then some (p.1, p.2, dictGet s.metadata p.1) else none)

/-- Loop body of `VectorStore.delete`, lines 161-166: skip deleted ids,
reconstruct each retained vector, and re-key its metadata (when present) to
`len(all_vectors) - 1`, its position among the retained vectors. -/
def deleteStep (s : VectorStore) (chunkIds : List Nat)
    (acc : List Vec × List (Nat × MetaRec)) (i : Nat) :
    List Vec × List (Nat × MetaRec) :=
  if i ∈ chunkIds then acc
  else
    let vector := (s.vectors.get? i).getD []
    let allVectors := acc.1 ++ [vector]
    let keep := match dictGet s.metadata i with
      | some m => dictInsert acc.2 (allVectors.length - 1) m
      | none => acc.2
    (allVectors, keep)

/-- Method `VectorStore.delete`, lines 145-175: an empty delete list is a
no-op; otherwise walk ids `0..ntotal-1`, keep the vectors not being deleted,
reset the index, re-add them, and install the remapped metadata. -/
def VectorStore.delete (s : VectorStore) (chunkIds : List Nat) : VectorStore :=
  if chunkIds.isEmpty then s
  else
    let folded := (List.range s.vectors.length).foldl (deleteStep s chunkIds) ([], [])
    { vectors := folded.1, metadata := folded.2 }

/-- Modelled from the spec's words for comparison with `VectorStore.delete`
(spec section 4.3, Vector Index: "reconstruct all retained vectors (those not
in the delete set) in original relative order, reset the index, re-add them,
and remap metadata onto the new contiguous id space"): the metadata remap,
assigning each retained original id's record to its position in the new id
space. -/
def remapMeta (md : List (Nat × MetaRec)) : List Nat → Nat → List (Nat × MetaRec)
  | [], _ => []
  | i :: rest, base =>
    match dictGet md i with
    | some m => (base, m) :: remapMeta md rest (base + 1)
    | none => remapMeta md rest (base + 1)

/-- Modelled from the spec's words (same sentence): the fresh index built only
from the retained vectors, in original relative order, with remapped
metadata. -/
def freshRetained (s : VectorStore) (chunkIds : List Nat) : VectorStore :=
  let retained := (List.range s.vectors.length).filter (fun i => ¬ i ∈ chunkIds)
  { vectors := retained.map (fun i => (s.vectors.get? i).getD [])
    metadata := remapMeta s.metadata retained 0 }

/-- The two files of the persisted store directory: `index.faiss` (the raw
vector list) and `metadata.json`. JSON stringifies the integer dict keys; the
decimal numeral is modelled as its digit list (most significant first). -/
structure Disk where
  indexFile : Option (List Vec)
  metadataFile : Option (List (List Nat × MetaRec))
deriving DecidableEq, Repr

/-- Decimal numeral of `n` as written by `json.dump` for an int dict key. -/
def encodeKey (n : Nat) : List Nat := (Nat.digits 10 n).reverse

/-- Python `int(k)` applied to a decimal numeral read back from JSON. -/
def decodeKey (ds : List Nat) : Nat := Nat.ofDigits 10 ds.reverse

/-- Method `VectorStore.save`, lines 177-192: write the index and the
metadata dict (keys stringified by JSON) to the store directory. -/
def VectorStore.save (s : VectorStore) : Disk :=
  ⟨some s.vectors, some (s.metadata.map (fun p => (encodeKey p.1, p.2)))⟩

/-- Method `VectorStore._load_metadata`, lines 50-60, as run by `__init__`
inside `load`: read `metadata.json` when present, converting string keys back
to integers; missing file leaves the dict empty. -/
def load_metadata (d : Disk) : List (Nat × MetaRec) :=
  match d.metadataFile with
  | some entries => entries.map (fun p => (decodeKey p.1, p.2))
  | none => []

/-- Classmethod `VectorStore.load`, lines 194-212: construct a store on the
saved directory (running `_load_metadata`), then replace the fresh empty
index with `index.faiss` when that file exists. -/
def VectorStore.load (d : Disk) : VectorStore :=
  { vectors := match d.indexFile with
      | some vs => vs
      | none => []
    metadata := load_metadata d }

/-! ## Lemmas about the dict model -/

theorem dictGet_append_right {α β : Type} [DecidableEq α]
    (m : List (α × β)) (k : α) (v : β) (h : dictGet m k = none) :
    dictGet (m ++ [(k, v)]) k = some v := by
  induction m with
  | nil => simp [dictGet]
  | cons p rest ih =>
    simp only [dictGet] at h
    by_cases hk : p.1 = k
    · simp [hk] at h
    · simp only [if_neg hk] at h
      simpa [dictGet, hk] using ih h

theorem dictGet_map_overwrite {α β : Type} [DecidableEq α]
    (m : List (α × β)) (k : α) (v : β) (h : (dictGet m k).isSome = true) :
    dictGet (m.map (fun p => if p.1 = k then (k, v) else p)) k = some v := by
  induction m with
  | nil => simp [dictGet] at h
  | cons p rest ih =>
    by_cases hk : p.1 = k
    · simp [dictGet, hk]
    · simp only [dictGet, if_neg hk] at h
      simpa [dictGet, hk] using ih h

theorem dictGet_dictInsert_self {α β : Type} [DecidableEq α]
    (m : List (α × β)) (k : α) (v : β) : dictGet (dictInsert m k v) k = some v := by
  unfold dictInsert
  by_cases h : (dictGet m k).isSome
  · rw [if_pos h]
    exact dictGet_map_overwrite m k v h
  · rw [if_neg h]
    exact dictGet_append_right m k v (Option.not_isSome_iff_eq_none.mp h)

theorem dictInsert_fresh {α β : Type} [DecidableEq α]
    (m : List (α × β)) (k : α) (v : β) (h : dictGet m k = none) :
    dictInsert m k v = m ++ [(k, v)] := by
  simp [dictInsert, h]

/-! ## Claims about the task execution engine -/

/-- C1, counterexample. A task whose first generation attempt fails with a
transient resource error while every later attempt would succeed: with
`max_retries = 3` the claim predicts `Completed` with `error` unset, but the
engine never retries, so the run ends `Failed` with the first error message
(and no mention of any attempt count). -/
theorem c1_counterexample :
    process_task_attempts
        (fun n => if n = 0 then GenOutcome.fails [] "Insufficient GPU memory available"
                  else GenOutcome.yields ["recovered"]) 3 none none
      = { finalStatus := .failed, error := some "Insufficient GPU memory available",
          result := none, yielded := [] }
      ∧ TaskStatus.failed ≠ TaskStatus.completed := by
  exact ⟨rfl, by decide⟩

/-- C1, amended: the engine makes exactly one generation attempt per task —
`max_retries` is stored by `__init__` but never consulted. A task whose single
attempt fails with a transient error is immediately marked `Failed` with that
error message, and only a task whose single attempt succeeds ends `Completed`
with `error` unset and the concatenated stream as result. -/
theorem c1_single_attempt (attempts : Nat → GenOutcome) (maxRetries : Nat) :
    process_task_attempts attempts maxRetries none none
        = process_task_run (attempts 0) none none
    ∧ (∀ cs e, attempts 0 = GenOutcome.fails cs e →
        (process_task_attempts attempts maxRetries none none).finalStatus = .failed
        ∧ (process_task_attempts attempts maxRetries none none).error = some e)
    ∧ (∀ cs, attempts 0 = GenOutcome.yields cs →
        (process_task_attempts attempts maxRetries none none).finalStatus = .completed
        ∧ (process_task_attempts attempts maxRetries none none).error = none) := by
  refine ⟨rfl, ?_, ?_⟩
  · intro cs e h
    simp [process_task_attempts, process_task_run, h]
  · intro cs h
    simp [process_task_attempts, process_task_run, h]

/-- C1, witness for the amended theorem at a concrete attempt sequence. -/
theorem c1_single_attempt_witness :
    (process_task_attempts (fun _ => GenOutcome.fails ["partial"] "timed out") 3
        none none).finalStatus = .failed
    ∧ (process_task_attempts (fun _ => GenOutcome.fails ["partial"] "timed out") 3
        none none).error = some "timed out" :=
  (c1_single_attempt (fun _ => GenOutcome.fails ["partial"] "timed out") 3).2.1
    ["partial"] "timed out" rfl

/-- C2, counterexample. Submitting the empty prompt does not fail: the task is
built and stored in the active map anyway, so a `Task` for that submission is
present with prompt `""` and status `Pending`. -/
theorem c2_counterexample :
    dictGet (ManagerAgent.create_task [] "task-1" "").1 "task-1"
      = some { id := "task-1", prompt := "", status := .pending,
               result := none, error := none } := by
  rfl

/-- C2, amended: `create_task` performs no validation at all — every prompt,
including the empty string, yields a `Pending` task stored in the active map.
The validation that would reject an empty prompt exists (`_validate_task`
raises "Task prompt is required") but `create_task` never calls it. -/
theorem c2_no_validation (tasks : List (String × Task)) (id prompt : String) :
    dictGet (ManagerAgent.create_task tasks id prompt).1 id
        = some (ManagerAgent.create_task tasks id prompt).2
    ∧ (ManagerAgent.create_task tasks id prompt).2.prompt = prompt
    ∧ (ManagerAgent.create_task tasks id prompt).2.status = .pending
    ∧ ManagerAgent.validate_task { id := "task-1", prompt := "" }
        = .error "Task prompt is required" := by
  refine ⟨?_, rfl, rfl, rfl⟩
  exact dictGet_dictInsert_self tasks id _

/-- C6, counterexample. A two-chunk stream whose consumer cancels the task
right after the first flush: the claim predicts no further chunks and final
status `Cancelled`, but the second chunk is still flushed and the completion
path overwrites the status with `Completed`. -/
theorem c6_counterexample :
    (process_task_run (GenOutcome.yields ["Hello. ", "World."]) (some 0) none).yielded.drop 1
        = ["World."]
    ∧ (process_task_run (GenOutcome.yields ["Hello. ", "World."]) (some 0) none).finalStatus
        = .completed := by
  exact ⟨rfl, rfl⟩

/-- C6, amended: `cancel_task` does move a `Processing` task to `Cancelled` at
the moment of the call, but `process_task` never re-reads the status between
flushes, so every remaining chunk is still yielded, and when the stream runs
to completion the status is overwritten with `Completed`. -/
theorem c6_cancel_not_observed (chunks : List String) (c : Nat)
    (tasks : List (String × Task)) (taskId : String) (task : Task)
    (hfound : dictGet tasks taskId = some task)
    (hproc : task.status = .processing) :
    (process_task_run (GenOutcome.yields chunks) (some c) none).yielded = chunks
    ∧ (process_task_run (GenOutcome.yields chunks) (some c) none).finalStatus = .completed
    ∧ ManagerAgent.cancel_task tasks taskId
        = .ok (dictInsert tasks taskId { task with status := .cancelled }) := by
  refine ⟨?_, ?_, ?_⟩
  · simp [process_task_run]
  · simp [process_task_run]
  · simp [ManagerAgent.cancel_task, hfound, hproc]

/-- C6, witness for the amended theorem on a concrete processing task. -/
theorem c6_cancel_not_observed_witness :
    (process_task_run (GenOutcome.yields ["a.", "b."]) (some 0) none).yielded = ["a.", "b."]
    ∧ (process_task_run (GenOutcome.yields ["a.", "b."]) (some 0) none).finalStatus
        = .completed
    ∧ ManagerAgent.cancel_task
          [("t1", { id := "t1", prompt := "p", status := .processing })] "t1"
        = .ok (dictInsert
            [("t1", { id := "t1", prompt := "p", status := .processing })] "t1"
            { id := "t1", prompt := "p", status := .cancelled }) := by
  exact c6_cancel_not_observed ["a.", "b."] 0
    [("t1", { id := "t1", prompt := "p", status := .processing })] "t1"
    { id := "t1", prompt := "p", status := .processing } rfl rfl

/-- C7, counterexample. A stream abandoned by its consumer after the first of
two chunks: `GeneratorExit` is not an `Exception`, `process_task` does not use
`_task_context`, and its `finally` only reclaims memory — so control returns
to the caller with the task still in `Processing`, a non-terminal status. -/
theorem c7_counterexample :
    (process_task_run (GenOutcome.yields ["a.", "b."]) none (some 1)).finalStatus
        = .processing
    ∧ TaskStatus.isTerminal
        (process_task_run (GenOutcome.yields ["a.", "b."]) none (some 1)).finalStatus
        = false := by
  exact ⟨rfl, rfl⟩

/-- C7, amended: the `_task_context` scope does guarantee the invariant for
every body that does not actively reset the status to `Pending` (no code path
does) — on every exit (normal completion, exception, or closure of the
surrounding generator) the task holds a terminal status, and a body that
neither raised nor set a terminal status is forced to `Failed` with error
"Task processing interrupted". But `process_task` does not use
`_task_context`, and a task whose stream is abandoned early remains in
`Processing`. -/
theorem c7_task_context_terminal (exit : ContextExit) (t : Task)
    (hbody : exit.statusLeft ≠ TaskStatus.pending) :
    TaskStatus.isTerminal (task_context exit t).status = true
    ∧ (exit = ContextExit.finished .processing ∨ exit = ContextExit.closed .processing →
        (task_context exit t).status = .failed
        ∧ (task_context exit t).error = some "Task processing interrupted")
    ∧ (process_task_run (GenOutcome.yields ["a.", "b."]) none (some 1)).finalStatus
        = .processing := by
  refine ⟨?_, ?_, by simp [process_task_run]⟩
  · cases exit with
    | finished s =>
        cases s <;> simp_all [task_context, TaskStatus.isTerminal, ContextExit.statusLeft]
    | raised e s =>
        cases s <;> simp_all [task_context, TaskStatus.isTerminal, ContextExit.statusLeft]
    | closed s =>
        cases s <;> simp_all [task_context, TaskStatus.isTerminal, ContextExit.statusLeft]
  · rintro (hexit | hexit) <;> subst hexit <;> simp [task_context]

/-- C7, witness for the amended theorem: a body that finished while still in
`Processing` is forced to `Failed` with the generic interruption error. -/
theorem c7_task_context_terminal_witness :
    TaskStatus.isTerminal
        (task_context (ContextExit.finished .processing) { id := "t1", prompt := "p" }).status
        = true
    ∧ (task_context (ContextExit.finished .processing) { id := "t1", prompt := "p" }).status
        = .failed
    ∧ (task_context (ContextExit.finished .processing) { id := "t1", prompt := "p" }).error
        = some "Task processing interrupted" := by
  have h := c7_task_context_terminal (ContextExit.finished .processing)
    { id := "t1", prompt := "p" } (by decide)
  exact ⟨h.1, (h.2.1 (Or.inl rfl)).1, (h.2.1 (Or.inl rfl)).2⟩

/-! ## Claims about the chunker -/

theorem create_chunks_go_stuck (f : Nat) (source : Option String) (idx : Nat)
    (ch : List TextChunk) :
    create_chunks_go {} ['a'] source (f + 1) (-49) idx ch
      = create_chunks_go {} ['a'] source f (-49) (idx + 1)
          (ch ++ [{ text := ['a'],
                    metadata := { index := idx, char_start := -49, char_end := 1,
                                  source := source } }]) := by
  rfl

theorem create_chunks_go_first (f : Nat) (source : Option String) :
    create_chunks_go {} ['a'] source (f + 1) 0 0 []
      = create_chunks_go {} ['a'] source f (-49) 1
          [{ text := ['a'],
             metadata := { index := 0, char_start := 0, char_end := 1,
                           source := source } }] := by
  rfl

/-- C4: the claim is falsified by the code — `create_chunks` never terminates
on the one-character text "a" under the default configuration (chunk_size 512,
chunk_overlap 50). Once `end` is clamped to `len(text)`, the next start is
`len(text) - chunk_overlap`, a fixed point below `len(text)`; the progress
guard compares the new start against `end` (not against the previous start),
so it only fires when `chunk_overlap ≤ 0`. No amount of fuel makes the loop
finish: the start offset does not strictly advance and the iteration count is
unbounded, re-appending the final chunk forever. -/
theorem c4_create_chunks_never_terminates (fuel : Nat) (source : Option String) :
    ChunkingStrategy.create_chunks {} ['a'] source fuel = none := by
  have aux : ∀ (g : Nat) (idx : Nat) (ch : List TextChunk),
      create_chunks_go {} ['a'] source g (-49) idx ch = none := by
    intro g
    induction g with
    | zero => intro idx ch; rfl
    | succ g ih =>
      intro idx ch
      rw [create_chunks_go_stuck]
      exact ih (idx + 1) _
  cases fuel with
  | zero => rfl
  | succ f =>
    unfold ChunkingStrategy.create_chunks
    rw [create_chunks_go_first]
    exact aux f 1 _

theorem pyStrip_eq_nil_of_all_ws (text : List Char) (h : ∀ c ∈ text, isWS c = true) :
    pyStrip text = [] := by
  unfold pyStrip
  have h1 : text.dropWhile isWS = [] := by
    rw [List.dropWhile_eq_nil_iff]
    exact h
  simp [h1]

/-- C10: for every input that is empty or all-whitespace, `TextChunker.process`
returns the empty list, for every registered strategy set, every requested
strategy name, and every fuel bound — in particular for fuel 0, under which
any call into `create_chunks` would have returned `none`, so no chunking
strategy is invoked and nothing is raised. -/
theorem c10_whitespace_returns_empty (text : List Char)
    (h : ∀ c ∈ text, isWS c = true)
    (strategies : List (String × ChunkCfg)) (default_strategy : ChunkCfg)
    (strategy_name : Option String) (source : Option String) (fuel : Nat) :
    TextChunker.process strategies default_strategy text strategy_name source fuel
      = some [] := by
  unfold TextChunker.process
  simp [pyStrip_eq_nil_of_all_ws text h]

/-- C10, witness at the two-character text " \t", with a registered strategy
and fuel 0. -/
theorem c10_whitespace_returns_empty_witness :
    TextChunker.process [("tiny", { chunk_size := 4 })] {} [' ', '\t'] (some "tiny")
        none 0
      = some [] :=
  c10_whitespace_returns_empty [' ', '\t'] (by decide)
    [("tiny", { chunk_size := 4 })] {} (some "tiny") none 0

/-! ## Claim about the embedding cache -/

/-- C8: embedding the same string a second time (caching enabled, any positive
batch size, any prior cache state, any model and any content hash) returns a
vector identical to the first result, and the second call sends no text to
the embedding model: whether the first call hit a pre-existing entry or wrote
a fresh one, the second call is answered entirely from the cache. -/
theorem c8_cache_hit (embed : String → Vec) (hash : String → String)
    (batchSize : Nat) (cache : EmbeddingCache) (text : String)
    (hbs : 0 < batchSize) :
    (generate embed hash batchSize
        (generate embed hash batchSize cache [text]).2.2 [text]).1
      = (generate embed hash batchSize cache [text]).1
    ∧ (generate embed hash batchSize
        (generate embed hash batchSize cache [text]).2.2 [text]).2.1
      = [] := by
  obtain ⟨n, rfl⟩ : ∃ n, batchSize = n + 1 :=
    ⟨batchSize - 1, (Nat.succ_pred_eq_of_pos hbs).symm⟩
  cases hget : dictGet cache.entries (hash text) with
  | none =>
    simp [generate, generateGo, generateBatch, mergeGenerated,
          EmbeddingCache.get, EmbeddingCache.store, hget, dictGet_dictInsert_self]
  | some v =>
    simp [generate, generateGo, generateBatch, mergeGenerated,
          EmbeddingCache.get, hget]

/-- C8, witness: a concrete second call on "hello world" with the default
batch size 8 and an initially empty cache. -/
theorem c8_cache_hit_witness :
    (generate (fun t => [(t.length : Int)]) (fun t => t) 8
        (generate (fun t => [(t.length : Int)]) (fun t => t) 8 ⟨[]⟩
          ["hello world"]).2.2 ["hello world"]).1
      = (generate (fun t => [(t.length : Int)]) (fun t => t) 8 ⟨[]⟩
          ["hello world"]).1
    ∧ (generate (fun t => [(t.length : Int)]) (fun t => t) 8
        (generate (fun t => [(t.length : Int)]) (fun t => t) 8 ⟨[]⟩
          ["hello world"]).2.2 ["hello world"]).2.1
      = [] :=
  c8_cache_hit (fun t => [(t.length : Int)]) (fun t => t) 8 ⟨[]⟩ "hello world"
    (by decide)

/-! ## Claims about the vector store -/

/-- C3, counterexample. Adding two chunks to a fresh store assigns ids
`[0, 1]`; deleting id 1 and then adding one more chunk assigns id `[1]` again
— the id of a previously stored and deleted record is reused by a later add,
because ids restart at the post-rebuild `ntotal`. -/
theorem c3_counterexample :
    (VectorStore.add ⟨[], []⟩ (fun t => [(t.length : Int)]) "2026-01-01"
        [⟨"a", []⟩, ⟨"bb", []⟩]).2 = [0, 1]
    ∧ (VectorStore.add
        (VectorStore.delete
          (VectorStore.add ⟨[], []⟩ (fun t => [(t.length : Int)]) "2026-01-01"
            [⟨"a", []⟩, ⟨"bb", []⟩]).1 [1])
        (fun t => [(t.length : Int)]) "2026-01-02" [⟨"ccc", []⟩]).2 = [1] := by
  exact ⟨rfl, rfl⟩

/-- C5, counterexample. Store two vectors (ids 0 and 1), delete id 0: the
retained vector is remapped to id 0, and the next search returns id 0 — an id
that was just deleted. The "search never returns a deleted id" half of the
claim fails because deletion renumbers the surviving records into the old id
range. -/
theorem c5_counterexample :
    VectorStore.search
        (VectorStore.delete
          ⟨[[0], [10]], [(0, ⟨"zero", [], "t0"⟩), (1, ⟨"ten", [], "t0"⟩)]⟩ [0])
        [0] 1 none
      = [(0, 100, some ⟨"ten", [], "t0"⟩)] := by
  rfl

theorem decodeKey_encodeKey (n : Nat) : decodeKey (encodeKey n) = n := by
  simp [decodeKey, encodeKey, Nat.ofDigits_digits]

theorem load_save_meta (metadata : List (Nat × MetaRec)) :
    (metadata.map (fun p => (encodeKey p.1, p.2))).map (fun p => (decodeKey p.1, p.2))
      = metadata := by
  induction metadata with
  | nil => rfl
  | cons p rest ih => simp [decodeKey_encodeKey, ih]

theorem load_save (s : VectorStore) : VectorStore.load (VectorStore.save s) = s := by
  cases s with
  | mk vectors metadata =>
    simp only [VectorStore.load, VectorStore.save, load_metadata]
    rw [load_save_meta]

/-- C9: saving a store and loading the saved directory reproduces the exact
store state — the index file restores the vectors and `_load_metadata`
restores the metadata dict (JSON's stringified keys parsed back by `int`) —
so every search on the loaded store returns results identical (same ids, same
distances, same metadata) to the original store's. -/
theorem c9_save_load_roundtrip (s : VectorStore) (query : Vec) (k : Nat)
    (threshold : Option Int) :
    (VectorStore.load (VectorStore.save s)).search query k threshold
      = s.search query k threshold := by
  rw [load_save]

theorem addMetaStep_foldl_ids (startIdx : Nat) (now : String) :
    ∀ (l : List (Nat × StoreChunk)) (md : List (Nat × MetaRec)) (acc : List Nat),
      (l.foldl (addMetaStep startIdx now) (md, acc)).2
        = acc ++ l.map (fun ic => startIdx + ic.1) := by
  intro l
  induction l with
  | nil => intro md acc; simp
  | cons p rest ih =>
    intro md acc
    simp only [List.foldl_cons, addMetaStep, List.map_cons]
    rw [ih]
    simp

theorem add_ids (s : VectorStore) (embed : String → Vec) (now : String)
    (chunks : List StoreChunk) :
    (VectorStore.add s embed now chunks).2
      = (List.range chunks.length).map (fun i => s.vectors.length + i) := by
  unfold VectorStore.add
  by_cases h : chunks.isEmpty
  · rw [if_pos h]
    rw [List.isEmpty_iff.mp h]
    simp
  · rw [if_neg h]
    simp only
    rw [addMetaStep_foldl_ids]
    rw [List.nil_append]
    have hcomp : chunks.enum.map (fun ic => s.vectors.length + ic.1)
        = (chunks.enum.map Prod.fst).map (fun i => s.vectors.length + i) := by
      rw [List.map_map]
      rfl
    rw [hcomp, List.enum_map_fst]

theorem add_vectors_length (s : VectorStore) (embed : String → Vec) (now : String)
    (chunks : List StoreChunk) :
    (VectorStore.add s embed now chunks).1.vectors.length
      = s.vectors.length + chunks.length := by
  unfold VectorStore.add
  by_cases h : chunks.isEmpty
  · rw [if_pos h]
    rw [List.isEmpty_iff.mp h]
    rfl
  · rw [if_neg h]
    simp

/-- C3, amended: `add` assigns the contiguous block of ids starting at the
current index size, so ids are strictly increasing within one `add` and every
id assigned by a later `add` is strictly larger than every id of an earlier
one — as long as no `delete` intervenes. Deletion remaps the survivors onto
the contiguous range `0..retained-1`, so previously assigned-and-deleted ids
are reused by later adds (the monotone-forever reading of the claim fails). -/
theorem c3_ids_monotone_without_delete (s : VectorStore) (embed : String → Vec)
    (now now2 : String) (cs1 cs2 : List StoreChunk) :
    (VectorStore.add s embed now cs1).2
        = (List.range cs1.length).map (fun i => s.vectors.length + i)
    ∧ (VectorStore.add s embed now cs1).2.Pairwise (· < ·)
    ∧ (∀ a ∈ (VectorStore.add s embed now cs1).2,
        ∀ b ∈ (VectorStore.add (VectorStore.add s embed now cs1).1 embed now2 cs2).2,
          a < b) := by
  refine ⟨add_ids s embed now cs1, ?_, ?_⟩
  · rw [add_ids]
    exact (List.pairwise_lt_range cs1.length).map _ (fun a b hab => by omega)
  · intro a ha b hb
    rw [add_ids] at ha hb
    rw [add_vectors_length] at hb
    obtain ⟨i, hi, rfl⟩ := List.mem_map.mp ha
    obtain ⟨j, hj, rfl⟩ := List.mem_map.mp hb
    rw [List.mem_range] at hi hj
    omega

/-- C3, witness for the amended theorem: ids of a first add into an empty
store, of a second add, and the strict inequality between them. -/
theorem c3_ids_monotone_without_delete_witness :
    (0 : Nat) ∈ (VectorStore.add ⟨[], []⟩ (fun t => [(t.length : Int)]) "d1"
        [⟨"a", []⟩, ⟨"bb", []⟩]).2
    ∧ (2 : Nat) ∈ (VectorStore.add
        (VectorStore.add ⟨[], []⟩ (fun t => [(t.length : Int)]) "d1"
          [⟨"a", []⟩, ⟨"bb", []⟩]).1 (fun t => [(t.length : Int)]) "d2"
        [⟨"ccc", []⟩]).2
    ∧ (0 : Nat) < 2 := by
  refine ⟨by decide, by decide, ?_⟩
  exact (c3_ids_monotone_without_delete ⟨[], []⟩ (fun t => [(t.length : Int)]) "d1" "d2"
      [⟨"a", []⟩, ⟨"bb", []⟩] [⟨"ccc", []⟩]).2.2 0 (by decide) 2 (by decide)

theorem dictGet_none_of_keys_lt {β : Type} (md : List (Nat × β)) (k : Nat)
    (h : ∀ p ∈ md, p.1 < k) : dictGet md k = none := by
  induction md with
  | nil => rfl
  | cons p rest ih =>
    have hp := h p (List.mem_cons_self p rest)
    simp only [dictGet]
    rw [if_neg (by omega)]
    exact ih (fun q hq => h q (List.mem_cons_of_mem p hq))

theorem deleteStep_foldl (s : VectorStore) (chunkIds : List Nat) :
    ∀ (l : List Nat) (vs0 : List Vec) (md0 : List (Nat × MetaRec)),
      (∀ p ∈ md0, p.1 < vs0.length) →
      l.foldl (deleteStep s chunkIds) (vs0, md0)
        = (vs0 ++ (l.filter (fun i => ¬ i ∈ chunkIds)).map
              (fun i => (s.vectors.get? i).getD []),
           md0 ++ remapMeta s.metadata (l.filter (fun i => ¬ i ∈ chunkIds)) vs0.length) := by
  intro l
  induction l with
  | nil => intro vs0 md0 h; simp [remapMeta]
  | cons i rest ih =>
    intro vs0 md0 h
    rw [List.foldl_cons]
    by_cases hin : i ∈ chunkIds
    · have hstep : deleteStep s chunkIds (vs0, md0) i = (vs0, md0) := by
        simp [deleteStep, hin]
      rw [hstep, ih vs0 md0 h]
      have hfil : (i :: rest).filter (fun j => ¬ j ∈ chunkIds)
          = rest.filter (fun j => ¬ j ∈ chunkIds) := by
        simp [List.filter_cons, hin]
      rw [hfil]
    · have hkey : dictGet md0 vs0.length = none :=
        dictGet_none_of_keys_lt md0 vs0.length h
      have hfil : (i :: rest).filter (fun j => ¬ j ∈ chunkIds)
          = i :: rest.filter (fun j => ¬ j ∈ chunkIds) := by
        simp [List.filter_cons, hin]
      rw [hfil]
      cases hmd : dictGet s.metadata i with
      | none =>
        have hstep : deleteStep s chunkIds (vs0, md0) i
            = (vs0 ++ [(s.vectors.get? i).getD []], md0) := by
          simp [deleteStep, hin, hmd]
        rw [hstep, ih _ _ (by
          intro p hp
          have := h p hp
          simp only [List.length_append, List.length_cons, List.length_nil]
          omega)]
        simp only [List.length_append, List.length_cons, List.length_nil,
          List.map_cons, remapMeta, hmd]
        simp [List.append_assoc]
      | some m =>
        have hstep : deleteStep s chunkIds (vs0, md0) i
            = (vs0 ++ [(s.vectors.get? i).getD []],
               md0 ++ [(vs0.length, m)]) := by
          simp only [deleteStep, hin, hmd, if_neg hin]
          rw [dictInsert_fresh _ _ _ (by
            simpa [List.length_append] using hkey)]
          simp
        rw [hstep, ih _ _ (by
          intro p hp
          rcases List.mem_append.mp hp with hp1 | hp1
          · have := h p hp1
            simp only [List.length_append, List.length_cons, List.length_nil]
            omega
          · simp only [List.mem_cons, List.not_mem_nil, or_false] at hp1
            subst hp1
            simp only [List.length_append, List.length_cons, List.length_nil]
            omega)]
        simp only [List.length_append, List.length_cons, List.length_nil,
          List.map_cons, remapMeta, hmd]
        simp [List.append_assoc]

theorem delete_eq_freshRetained (s : VectorStore) (chunkIds : List Nat)
    (h : chunkIds ≠ []) :
    VectorStore.delete s chunkIds = freshRetained s chunkIds := by
  unfold VectorStore.delete
  rw [if_neg (by simpa [List.isEmpty_iff] using h)]
  rw [deleteStep_foldl s chunkIds (List.range s.vectors.length) [] [] (by simp)]
  simp [freshRetained]

theorem mem_insertScored (x a : Nat × Int) (l : List (Nat × Int)) :
    a ∈ insertScored x l ↔ a = x ∨ a ∈ l := by
  induction l with
  | nil => simp [insertScored]
  | cons y ys ih =>
    simp only [insertScored]
    by_cases hc : x.2 < y.2 ∨ (x.2 = y.2 ∧ x.1 ≤ y.1)
    · rw [if_pos hc]
      simp [List.mem_cons]
    · rw [if_neg hc]
      simp only [List.mem_cons, ih]
      tauto

theorem mem_sortScored (a : Nat × Int) (l : List (Nat × Int)) :
    a ∈ sortScored l ↔ a ∈ l := by
  induction l with
  | nil => simp [sortScored]
  | cons x xs ih =>
    simp [sortScored, mem_insertScored, ih]

theorem search_id_lt (s : VectorStore) (q : Vec) (k : Nat) (t : Option Int) :
    ∀ r ∈ VectorStore.search s q k t, r.1 < s.vectors.length := by
  intro r hr
  simp only [VectorStore.search, List.mem_filterMap] at hr
  obtain ⟨p, hp, hfp⟩ := hr
  have hps : p ∈ sortScored ((List.range s.vectors.length).map
      (fun i => (i, sqDist q ((s.vectors.get? i).getD [])))) :=
    List.mem_of_mem_take hp
  rw [mem_sortScored, List.mem_map] at hps
  obtain ⟨i, hi, rfl⟩ := hps
  rw [List.mem_range] at hi
  split at hfp
  · rw [Option.some.injEq] at hfp
    rw [← hfp]
    exact hi
  · split at hfp
    · rw [Option.some.injEq] at hfp
      rw [← hfp]
      exact hi
    · exact absurd hfp (by simp)

theorem search_congr (s1 s2 : VectorStore) (hv : s1.vectors = s2.vectors)
    (hm : ∀ i, i < s1.vectors.length →
        dictGet s1.metadata i = dictGet s2.metadata i)
    (q : Vec) (k : Nat) (t : Option Int) :
    VectorStore.search s1 q k t = VectorStore.search s2 q k t := by
  unfold VectorStore.search
  rw [hv]
  apply List.filterMap_congr
  intro p hp
  have hps : p ∈ sortScored ((List.range s2.vectors.length).map
      (fun i => (i, sqDist q ((s2.vectors.get? i).getD [])))) :=
    List.mem_of_mem_take hp
  rw [mem_sortScored, List.mem_map] at hps
  obtain ⟨i, hi, rfl⟩ := hps
  rw [List.mem_range] at hi
  have hmi : dictGet s1.metadata i = dictGet s2.metadata i := by
    apply hm
    rw [hv]
    exact hi
  cases t with
  | none => simp [hmi]
  | some tv => by_cases hle : sqDist q ((s2.vectors.get? i).getD []) ≤ tv <;>
      simp [hle, hmi]

theorem map_get_range (l : List Vec) :
    (List.range l.length).map (fun i => (l.get? i).getD []) = l := by
  apply List.ext_get?
  intro n
  rw [List.get?_map]
  by_cases h : n < l.length
  · rw [List.get?_range h]
    simp [List.getElem?_eq_getElem h]
  · have h1 : (List.range l.length).get? n = none := by
      rw [List.get?_eq_none]
      simpa using Nat.le_of_not_lt h
    have h2 : l.get? n = none := by
      rw [List.get?_eq_none]
      exact Nat.le_of_not_lt h
    rw [h1, h2]
    rfl

theorem remapMeta_keys_ge (md : List (Nat × MetaRec)) :
    ∀ (retained : List Nat) (base : Nat),
      ∀ p ∈ remapMeta md retained base, base ≤ p.1 := by
  intro retained
  induction retained with
  | nil => intro base p hp; simp [remapMeta] at hp
  | cons i rest ih =>
    intro base p hp
    simp only [remapMeta] at hp
    cases hmd : dictGet md i with
    | none =>
      rw [hmd] at hp
      have := ih (base + 1) p hp
      omega
    | some m =>
      rw [hmd] at hp
      rcases List.mem_cons.mp hp with hp1 | hp1
      · subst hp1
        exact Nat.le_refl base
      · have := ih (base + 1) p hp1
        omega

theorem dictGet_mem {β : Type} (m : List (Nat × β)) (k : Nat) (v : β)
    (h : dictGet m k = some v) : (k, v) ∈ m := by
  induction m with
  | nil => simp [dictGet] at h
  | cons p rest ih =>
    simp only [dictGet] at h
    by_cases hk : p.1 = k
    · rw [if_pos hk, Option.some.injEq] at h
      have hkv : (k, v) = p := by
        obtain ⟨a, b⟩ := p
        simp_all
      rw [hkv]
      exact List.mem_cons_self _ _
    · rw [if_neg hk] at h
      exact List.mem_cons_of_mem p (ih h)

theorem dictGet_remapMeta_lt (md : List (Nat × MetaRec)) (retained : List Nat)
    (base k : Nat) (hk : k < base) :
    dictGet (remapMeta md retained base) k = none := by
  cases h : dictGet (remapMeta md retained base) k with
  | none => rfl
  | some v =>
    have := remapMeta_keys_ge md retained base (k, v) (dictGet_mem _ _ _ h)
    omega

theorem dictGet_remapMeta_range (md : List (Nat × MetaRec)) :
    ∀ (n b i : Nat), i < n →
      dictGet (remapMeta md (List.range' b n) b) (b + i) = dictGet md (b + i) := by
  intro n
  induction n with
  | zero => intro b i hi; omega
  | succ n ih =>
    intro b i hi
    rw [List.range'_succ]
    cases i with
    | zero =>
      simp only [remapMeta, Nat.add_zero]
      cases hmd : dictGet md b with
      | none =>
        rw [dictGet_remapMeta_lt md _ _ b (by omega)]
      | some m =>
        simp [dictGet]
    | succ j =>
      have key : b + (j + 1) = (b + 1) + j := by omega
      simp only [remapMeta]
      cases hmd : dictGet md b with
      | none =>
        rw [key, ih (b + 1) j (by omega)]
      | some m =>
        simp only [dictGet]
        rw [if_neg (by omega)]
        rw [key, ih (b + 1) j (by omega)]

theorem delete_vectors_length (s : VectorStore) (chunkIds : List Nat) :
    (VectorStore.delete s chunkIds).vectors.length
      = ((List.range s.vectors.length).filter (fun i => ¬ i ∈ chunkIds)).length := by
  by_cases h : chunkIds = []
  · subst h
    have hfil : (List.range s.vectors.length).filter
        (fun i => ¬ i ∈ ([] : List Nat)) = List.range s.vectors.length := by
      rw [List.filter_eq_self]
      intro a _
      simp
    rw [hfil]
    simp [VectorStore.delete]
  · rw [delete_eq_freshRetained s chunkIds h]
    simp [freshRetained]

/-- C5, amended: `delete` is exactly the fresh rebuild the spec describes —
after `delete(ids)`, for every query, `search` returns results identical to
those of a fresh index built only from the retained vectors in original
relative order with their metadata remapped onto the new contiguous id space
(`freshRetained`, written from the spec's words). Because of that remapping,
every returned id is below the retained-vector count, but an id numerically
equal to a deleted one can be returned (it now names a surviving record);
"never returns a deleted id" only holds in the sense that no stale
out-of-range id survives. -/
theorem c5_delete_refines_fresh (s : VectorStore) (chunkIds : List Nat)
    (q : Vec) (k : Nat) (t : Option Int) :
    (VectorStore.delete s chunkIds).search q k t
        = (freshRetained s chunkIds).search q k t
    ∧ (∀ r ∈ (VectorStore.delete s chunkIds).search q k t,
        r.1 < ((List.range s.vectors.length).filter
                 (fun i => ¬ i ∈ chunkIds)).length) := by
  constructor
  · by_cases h : chunkIds = []
    · subst h
      have hdel : VectorStore.delete s [] = s := by
        simp [VectorStore.delete]
      rw [hdel]
      have hfil : (List.range s.vectors.length).filter
          (fun i => ¬ i ∈ ([] : List Nat)) = List.range s.vectors.length := by
        rw [List.filter_eq_self]
        intro a _
        simp
      apply search_congr
      · show s.vectors = (freshRetained s []).vectors
        simp only [freshRetained, hfil]
        rw [map_get_range]
      · intro i hi
        show dictGet s.metadata i = dictGet (freshRetained s []).metadata i
        simp only [freshRetained, hfil]
        rw [List.range_eq_range']
        have := dictGet_remapMeta_range s.metadata s.vectors.length 0 i hi
        simpa using this.symm
    · rw [delete_eq_freshRetained s chunkIds h]
  · intro r hr
    have hlt := search_id_lt (VectorStore.delete s chunkIds) q k t r hr
    rwa [delete_vectors_length] at hlt

/-- C5, witness for the amended theorem on the two-vector store of the
counterexample: the search equivalence at that instance, and the id bound
applied to the returned result. -/
theorem c5_delete_refines_fresh_witness :
    (VectorStore.delete
        ⟨[[0], [10]], [(0, ⟨"zero", [], "t0"⟩), (1, ⟨"ten", [], "t0"⟩)]⟩ [0]).search
        [0] 1 none
      = (freshRetained
          ⟨[[0], [10]], [(0, ⟨"zero", [], "t0"⟩), (1, ⟨"ten", [], "t0"⟩)]⟩ [0]).search
          [0] 1 none
    ∧ ((0 : Nat), (100 : Int), some (⟨"ten", [], "t0"⟩ : MetaRec)).1
        < ((List.range
              (⟨[[0], [10]], [(0, ⟨"zero", [], "t0"⟩), (1, ⟨"ten", [], "t0"⟩)]⟩ :
                VectorStore).vectors.length).filter
            (fun i => ¬ i ∈ [0])).length := by
  constructor
  · exact (c5_delete_refines_fresh
      ⟨[[0], [10]], [(0, ⟨"zero", [], "t0"⟩), (1, ⟨"ten", [], "t0"⟩)]⟩ [0]
      [0] 1 none).1
  · exact (c5_delete_refines_fresh
      ⟨[[0], [10]], [(0, ⟨"zero", [], "t0"⟩), (1, ⟨"ten", [], "t0"⟩)]⟩ [0]
      [0] 1 none).2 (0, 100, some ⟨"ten", [], "t0"⟩) (by decide)

end Alma
